import Mathlib

/-!
Verification of the osm-history-animation core (src/main.rs) against its
natural-language specification.

The Rust source is shallowly embedded:
* `u32`/`u16`/`u64` machine integers become `Nat`, with an explicit `% 2^32`
  wherever the source performs a narrowing cast or a wrapping operation that
  can actually overflow;
* `f32` magnitudes and coordinates become `ℚ` (exact arithmetic);
* code that can panic becomes `Option`-valued (`none` = panic/abort);
* the two `HashMap`s of `read_pbf` become association lists (iteration order
  of a `HashMap` is arbitrary; no claim depends on it).
-/

/-- Image raster: one optional magnitude per pixel (`Vec<Option<f32>>`). -/
abbrev Image := List (Option ℚ)

/-- Frames: `(frame_no, Vec<(pixel_index, num_changes)>)` list, from `type Frames`. -/
abbrev Frames := List (Nat × List (Nat × Nat))

/-! ## Colour ramp (`struct ColourRamp`, src/main.rs lines 25-85) -/

/-- `ColourRamp`: one empty RGB colour plus ordered `(age, RGB)` steps. -/
structure ColourRamp where
  empty_colour : Nat × Nat × Nat
  steps : List (Nat × (Nat × Nat × Nat))
deriving DecidableEq

/-- `ColourRamp::palette` (lines 58-71): empty colour's three components,
then each step's three components in configured order. -/
def ColourRamp.palette (r : ColourRamp) : List Nat :=
  r.empty_colour.1 :: r.empty_colour.2.1 :: r.empty_colour.2.2 ::
    r.steps.flatMap (fun s => [s.2.1, s.2.2.1, s.2.2.2])

/-- `ColourRamp::index_for_magnitude` (lines 73-84). -/
def ColourRamp.index_for_magnitude (r : ColourRamp) (magnitude : Option Nat) : Nat :=
  match magnitude with
  | none => 0
  | some magnitude => if magnitude > 255 then 1 else 255 - magnitude

/-! ## Decay raster renderer (lines 225-243 and the per-frame loop bodies of
`create_gif` / `create_frames`, lines 246-339) -/

/-- One pixel of `decay_image` (lines 237-243): a set pixel holding a value
`> 0` is multiplied by `0.99`; other pixels are left as they are. -/
def decay_pixel (p : Option ℚ) : Option ℚ :=
  match p with
  | some x => if 0 < x then some (x * (99 / 100)) else some x
  | none => none

/-- `decay_image` (lines 237-243), acting on every pixel of the raster. -/
def decay_image (image : Image) : Image :=
  image.map decay_pixel

/-- `get_max_value` (lines 225-235): maximum over set pixels, starting from `0`. -/
def get_max_value (image : Image) : ℚ :=
  (image.filterMap id).foldl (fun max pixel => if max < pixel then pixel else max) 0

/-- Rust's `f.round() as u8` saturating cast chain applied to a rational:
round, then clamp into `[0, 255]`. -/
def round_as_u8 (q : ℚ) : Nat :=
  min (round q).toNat 255

/-- One pixel of the normalize/emit step of `create_gif` (lines 270-276):
`None` emits `0`, `Some x` emits `(255 * (x/max)).round() as u8`.
(`x/0 = 0` in `ℚ`; at the call sites below `max = get_max_value image`,
and whenever that is `0` every set pixel is `≤ 0`, where Rust's
`NaN`/`-inf` casts also yield `0`.) -/
def emit_pixel (max : ℚ) (p : Option ℚ) : Nat :=
  match p with
  | none => 0
  | some x => round_as_u8 (255 * (x / max))

/-- The whole emitted intensity buffer for one frame (lines 268-276). -/
def emit_frame (image : Image) : List Nat :=
  image.map (emit_pixel (get_max_value image))

/-- The accumulate step applied to one delta (lines 259-266 of `create_gif`,
identically lines 300-307 of `create_frames`): out-of-range pixel indices are
skipped, in-range ones have the count added on top of `unwrap_or(0)`. -/
def apply_delta (width height : Nat) (image : Image) (d : Nat × Nat) : Image :=
  if d.1 < width * height then
    image.set d.1 (some ((image.getD d.1 none).getD 0 + (d.2 : ℚ)))
  else
    image

/-- The accumulate step over a whole frame record's deltas. -/
def apply_deltas (width height : Nat) (image : Image) (deltas : List (Nat × Nat)) : Image :=
  deltas.foldl (apply_delta width height) image

/-! ### Helper lemmas about decay -/

lemma decay_pixel_some (x : ℚ) :
    decay_pixel (some x) = if 0 < x then some (x * (99 / 100)) else some x := rfl

lemma decay_image_get? (image : Image) (i : Nat) :
    (decay_image image).get? i = (image.get? i).map decay_pixel := by
  simp [decay_image, List.getElem?_map, List.get?_eq_getElem?]

lemma decay_image_iterate_get? (k : Nat) (image : Image) (i : Nat) :
    (decay_image^[k] image).get? i = (image.get? i).map (decay_pixel^[k]) := by
  induction k generalizing image with
  | zero =>
      show image.get? i = (image.get? i).map (decay_pixel^[0])
      cases image.get? i <;> rfl
  | succ n ih =>
      rw [Function.iterate_succ_apply, ih (decay_image image), decay_image_get?,
        Option.map_map, ← Function.iterate_succ]

lemma decay_pixel_iterate_some (k : Nat) (x : ℚ) (hx : 0 ≤ x) :
    decay_pixel^[k] (some x) = some (x * (99 / 100) ^ k) := by
  induction k with
  | zero => simp
  | succ n ih =>
      rw [Function.iterate_succ_apply', ih, decay_pixel_some]
      by_cases h : 0 < x * (99 / 100) ^ n
      · rw [if_pos h]
        congr 1
        ring
      · rw [if_neg h]
        have h0 : x * (99 / 100) ^ n = 0 :=
          le_antisymm (not_lt.mp h) (mul_nonneg hx (by positivity))
        rw [h0, pow_succ, ← mul_assoc, h0, zero_mul]

lemma get_max_value_of_all_unset (image : Image) (h : ∀ p ∈ image, p = none) :
    get_max_value image = 0 := by
  have hnil : List.filterMap (id : Option ℚ → Option ℚ) image = [] :=
    List.filterMap_eq_nil_iff.mpr (fun p hp => h p hp)
  unfold get_max_value
  rw [hnil]
  rfl

/-- C1: one decay step multiplies every pixel holding a magnitude > 0 by 0.99,
leaves unset pixels unset, never produces a negative magnitude from a
non-negative one, and k decay steps take a non-negative set magnitude `x`
to `x * 0.99 ^ k`. -/
theorem c1_decay_law (image : Image) :
    (∀ i x, image.get? i = some (some x) → 0 < x →
      (decay_image image).get? i = some (some (x * (99 / 100)))) ∧
    (∀ i, image.get? i = some none → (decay_image image).get? i = some none) ∧
    (∀ i x, image.get? i = some (some x) → 0 ≤ x →
      ∃ y, (decay_image image).get? i = some (some y) ∧ 0 ≤ y) ∧
    (∀ k i x, image.get? i = some (some x) → 0 ≤ x →
      (decay_image^[k] image).get? i = some (some (x * (99 / 100) ^ k))) := by
  refine ⟨?_, ?_, ?_, ?_⟩
  · intro i x h hx
    rw [decay_image_get?, h, Option.map_some', decay_pixel_some, if_pos hx]
  · intro i h
    rw [decay_image_get?, h]
    rfl
  · intro i x h hx
    rw [decay_image_get?, h, Option.map_some', decay_pixel_some]
    by_cases hpos : 0 < x
    · exact ⟨x * (99 / 100), by rw [if_pos hpos], by positivity⟩
    · exact ⟨x, by rw [if_neg hpos], hx⟩
  · intro k i x h hx
    rw [decay_image_iterate_get?, h, Option.map_some', decay_pixel_iterate_some k x hx]

/-- Witness for C1 at the concrete raster `[some 2, some 0, none]`. -/
theorem c1_decay_law_witness :
    ([some 2, some 0, none] : Image).get? 0 = some (some 2) ∧
    (decay_image [some 2, some 0, none]).get? 0 = some (some (2 * (99 / 100))) ∧
    (decay_image [some 2, some 0, none]).get? 2 = some none ∧
    (decay_image^[3] [some 2, some 0, none]).get? 0 = some (some (2 * (99 / 100) ^ 3)) :=
  ⟨rfl,
   (c1_decay_law [some 2, some 0, none]).1 0 2 rfl (by norm_num),
   (c1_decay_law [some 2, some 0, none]).2.1 2 rfl,
   (c1_decay_law [some 2, some 0, none]).2.2.2 3 0 2 rfl (by norm_num)⟩

/-- C4: if no pixel of the raster is set, or the maximum magnitude over set
pixels is 0, every emitted 8-bit intensity for the frame is 0 (division by
zero cannot produce a nonzero output). -/
theorem c4_normalize_zero (image : Image)
    (h : (∀ p ∈ image, p = none) ∨ get_max_value image = 0) :
    ∀ v ∈ emit_frame image, v = 0 := by
  have hmax : get_max_value image = 0 := by
    rcases h with h | h
    · exact get_max_value_of_all_unset image h
    · exact h
  intro v hv
  rw [emit_frame, List.mem_map] at hv
  obtain ⟨p, _, rfl⟩ := hv
  cases p with
  | none => rfl
  | some x =>
      show round_as_u8 (255 * (x / get_max_value image)) = 0
      rw [hmax, div_zero, mul_zero, round_as_u8, round_zero, Int.toNat_zero]
      rfl

/-- Witness for C4 at the concrete raster `[none, some 0, some (-3)]`. -/
theorem c4_normalize_zero_witness :
    get_max_value [none, some 0, some (-3)] = 0 ∧
    ∀ v ∈ emit_frame [none, some 0, some (-3)], v = 0 :=
  ⟨by decide, c4_normalize_zero [none, some 0, some (-3)] (Or.inr (by decide))⟩

lemma flatMap_rgb_take_drop :
    ∀ (steps : List (Nat × (Nat × Nat × Nat))) (k : Nat) (h : k < steps.length),
      (((steps.flatMap (fun s => [s.2.1, s.2.2.1, s.2.2.2])).drop (3 * k)).take 3)
        = [(steps.get ⟨k, h⟩).2.1, (steps.get ⟨k, h⟩).2.2.1, (steps.get ⟨k, h⟩).2.2.2]
  | [], k, h => absurd h (by simp)
  | s :: rest, 0, _ => rfl
  | s :: rest, k + 1, h => by
      have h3 : 3 * (k + 1) = 3 + 3 * k := by ring
      have hk : k < rest.length := Nat.lt_of_succ_lt_succ h
      have hdrop : (((s :: rest).flatMap (fun s => [s.2.1, s.2.2.1, s.2.2.2])).drop (3 * (k + 1)))
          = ((rest.flatMap (fun s => [s.2.1, s.2.2.1, s.2.2.2])).drop (3 * k)) := by
        rw [h3, ← List.drop_drop, List.flatMap_cons]
        rfl
      rw [hdrop, flatMap_rgb_take_drop rest k hk]
      rfl

/-- C8: the palette places the empty colour at index 0 (bytes 0-2) followed by
the ramp step colours in configured order (bytes 3+3k..5+3k for step k);
`index_for_magnitude` sends `None` to 0, any magnitude > 255 to the fixed
sentinel index 1, and any magnitude ≤ 255 to `255 - magnitude`; for the ramp
with empty colour (0,0,0) and single step (10,(255,0,0)) the palette is
[0,0,0,255,0,0], mapping(None) = 0 and mapping(100) = 155. -/
theorem c8_palette_mapping :
    (∀ r : ColourRamp, r.palette.take 3
        = [r.empty_colour.1, r.empty_colour.2.1, r.empty_colour.2.2]) ∧
    (∀ (r : ColourRamp) (k : Nat) (h : k < r.steps.length),
      ((r.palette.drop (3 + 3 * k)).take 3)
        = [(r.steps.get ⟨k, h⟩).2.1, (r.steps.get ⟨k, h⟩).2.2.1,
           (r.steps.get ⟨k, h⟩).2.2.2]) ∧
    (∀ r : ColourRamp, r.index_for_magnitude none = 0) ∧
    (∀ (r : ColourRamp) (m : Nat), 255 < m → r.index_for_magnitude (some m) = 1) ∧
    (∀ (r : ColourRamp) (m : Nat), m ≤ 255 → r.index_for_magnitude (some m) = 255 - m) ∧
    ColourRamp.palette ⟨(0, 0, 0), [(10, (255, 0, 0))]⟩ = [0, 0, 0, 255, 0, 0] ∧
    ColourRamp.index_for_magnitude ⟨(0, 0, 0), [(10, (255, 0, 0))]⟩ none = 0 ∧
    ColourRamp.index_for_magnitude ⟨(0, 0, 0), [(10, (255, 0, 0))]⟩ (some 100) = 155 := by
  refine ⟨fun r => rfl, ?_, fun r => rfl, ?_, ?_, rfl, rfl, rfl⟩
  · intro r k h
    have hdrop : r.palette.drop (3 + 3 * k)
        = (r.steps.flatMap (fun s => [s.2.1, s.2.2.1, s.2.2.2])).drop (3 * k) := by
      rw [← List.drop_drop]
      rfl
    rw [hdrop, flatMap_rgb_take_drop r.steps k h]
  · intro r m h
    show (if m > 255 then 1 else 255 - m) = 1
    rw [if_pos h]
  · intro r m h
    show (if m > 255 then 1 else 255 - m) = 255 - m
    rw [if_neg (by omega)]

/-- Witness for C8 at a two-step ramp, step index 1, and magnitudes 300 and 7. -/
theorem c8_palette_mapping_witness :
    (1 : Nat) < (ColourRamp.mk (1, 2, 3) [(10, (255, 0, 0)), (20, (9, 8, 7))]).steps.length ∧
    ((ColourRamp.palette ⟨(1, 2, 3), [(10, (255, 0, 0)), (20, (9, 8, 7))]⟩).drop (3 + 3 * 1)).take 3
      = [9, 8, 7] ∧
    ColourRamp.index_for_magnitude ⟨(1, 2, 3), [(10, (255, 0, 0)), (20, (9, 8, 7))]⟩ (some 300) = 1 ∧
    ColourRamp.index_for_magnitude ⟨(1, 2, 3), [(10, (255, 0, 0)), (20, (9, 8, 7))]⟩ (some 7) = 248 :=
  ⟨by decide,
   c8_palette_mapping.2.1 ⟨(1, 2, 3), [(10, (255, 0, 0)), (20, (9, 8, 7))]⟩ 1 (by decide),
   c8_palette_mapping.2.2.2.1 ⟨(1, 2, 3), [(10, (255, 0, 0)), (20, (9, 8, 7))]⟩ 300 (by decide),
   c8_palette_mapping.2.2.2.2.1 ⟨(1, 2, 3), [(10, (255, 0, 0)), (20, (9, 8, 7))]⟩ 7 (by decide)⟩

/-- C9: during rendering, a delta whose pixel index is out of range
(≥ width×height) leaves the raster unchanged; a delta whose pixel index is in
range adds its count to that pixel's magnitude (unset read as 0) and leaves
every other pixel unchanged. -/
theorem c9_delta_accumulation (width height : Nat) (image : Image) (i c : Nat)
    (hlen : image.length = width * height) :
    (width * height ≤ i → apply_delta width height image (i, c) = image) ∧
    (i < width * height →
      (apply_delta width height image (i, c)).get? i
          = some (some ((image.getD i none).getD 0 + (c : ℚ))) ∧
      ∀ j, j ≠ i → (apply_delta width height image (i, c)).get? j = image.get? j) := by
  constructor
  · intro h
    rw [apply_delta, if_neg (by omega)]
  · intro h
    rw [apply_delta, if_pos h]
    constructor
    · exact List.get?_set_eq_of_lt _ (by omega)
    · intro j hj
      exact List.get?_set_ne _ _ (fun e => hj e.symm)

/-- Witness for C9 on a 2×2 raster: an out-of-range delta is dropped, an
in-range delta is added on top of the unset-as-0 reading. -/
theorem c9_delta_accumulation_witness :
    ([some 5, none, none, some 1] : Image).length = 2 * 2 ∧
    apply_delta 2 2 [some 5, none, none, some 1] (4, 9) = [some 5, none, none, some 1] ∧
    (apply_delta 2 2 [some 5, none, none, some 1] (1, 9)).get? 1
      = some (some ((([some 5, none, none, some 1] : Image).getD 1 none).getD 0 + (9 : ℚ))) ∧
    (apply_delta 2 2 [some 5, none, none, some 1] (1, 9)).get? 3
      = ([some 5, none, none, some 1] : Image).get? 3 :=
  ⟨rfl,
   (c9_delta_accumulation 2 2 [some 5, none, none, some 1] 4 9 rfl).1 (by norm_num),
   ((c9_delta_accumulation 2 2 [some 5, none, none, some 1] 1 9 rfl).2 (by norm_num)).1,
   ((c9_delta_accumulation 2 2 [some 5, none, none, some 1] 1 9 rfl).2 (by norm_num)).2 3
     (by norm_num)⟩

/-! ## Temporal binner and ingestion (`read_pbf`, src/main.rs lines 87-150) -/

/-- 1st April 2005, midnight GMT (line 95). -/
def osm_epoch : Nat := 1109635200

/-- `2^32`: the modulus of `u32` arithmetic. -/
def u32_size : Nat := 2 ^ 32

/-- Frame number of a timestamp (lines 104-110):
`offset = (timestamp - osm_epoch) as u32; frame_no = offset / sec_per_frame`.
The `as u32` narrowing of the `u64` difference is the `% u32_size`.
(Rust panics when `sec_per_frame = 0`; the claims only concern `S > 0`,
where `Nat` division agrees with the source.) -/
def frame_number (timestamp sec_per_frame : Nat) : Nat :=
  ((timestamp - osm_epoch) % u32_size) / sec_per_frame

/-- One OSM node as consumed by `read_pbf`: optional coordinates plus an
epoch-second timestamp. -/
structure Node where
  lat : Option ℚ
  lon : Option ℚ
  timestamp : Nat
deriving DecidableEq

/-- `results.entry(..).or_insert(0)` followed by
`if *curr_val < u16::MAX { *curr_val += 1 }` (lines 121-124), on the inner
pixel map (association list standing for the `HashMap`). -/
def bump_pixel : List (Nat × Nat) → Nat → List (Nat × Nat)
  | [], p => [(p, 1)]
  | (q, c) :: rest, p =>
      if q = p then (q, if c < 65535 then c + 1 else c) :: rest
      else (q, c) :: bump_pixel rest p

/-- The same saturating increment keyed first by frame number (line 121). -/
def bump_frame : List (Nat × List (Nat × Nat)) → Nat → Nat → List (Nat × List (Nat × Nat))
  | [], f, p => [(f, bump_pixel [] p)]
  | (g, m) :: rest, f, p =>
      if g = f then (g, bump_pixel m p) :: rest
      else (g, m) :: bump_frame rest f p

/-- The mutable state of `read_pbf`'s ingestion loop (lines 92-98). -/
structure IngestState where
  first_frame_no : Nat
  last_frame_no : Nat
  results : List (Nat × List (Nat × Nat))
deriving DecidableEq

/-- `first_frame_no = u32::MAX; last_frame_no = 0; results` empty. -/
def init_state : IngestState := ⟨4294967295, 0, []⟩

/-- The body of the `for node in node_reader` loop (lines 101-132). `none`
models the `panic!` on a timestamp before the epoch; nodes missing a
coordinate are skipped before any timestamp check. -/
def ingest_step (pixel_func : ℚ → ℚ → Option Nat) (sec_per_frame : Nat)
    (st : IngestState) (node : Node) : Option IngestState :=
  match node.lat, node.lon with
  | some lat, some lon =>
      if node.timestamp < osm_epoch then none
      else
        let f := frame_number node.timestamp sec_per_frame
        let first := if f < st.first_frame_no then f else st.first_frame_no
        let last := if f > st.last_frame_no then f else st.last_frame_no
        match pixel_func lat lon with
        | some pixel_idx => some ⟨first, last, bump_frame st.results f pixel_idx⟩
        | none => some ⟨first, last, st.results⟩
  | _, _ => some st

/-- The whole ingestion loop over the node stream. -/
def ingest_all (pixel_func : ℚ → ℚ → Option Nat) (sec_per_frame : Nat) :
    IngestState → List Node → Option IngestState
  | st, [] => some st
  | st, node :: rest =>
      match ingest_step pixel_func sec_per_frame st node with
      | none => none
      | some st2 => ingest_all pixel_func sec_per_frame st2 rest

/-- The finalize pass (lines 134-149), with the `u32` wrapping of
`last_frame_no - first_frame_no + 1` and of `frame_no + first_frame_no`
made explicit (`remove` on distinct keys behaves as `lookup`). -/
def finalize_frames (st : IngestState) : Frames :=
  let num_frames := ((st.last_frame_no + u32_size - st.first_frame_no) % u32_size + 1) % u32_size
  (List.range num_frames).map (fun frame_no =>
    match st.results.lookup ((frame_no + st.first_frame_no) % u32_size) with
    | none => (frame_no, [])
    | some pixels => (frame_no, pixels))

/-- `read_pbf` (lines 87-150): ingest every node, then finalize. -/
def read_pbf (pixel_func : ℚ → ℚ → Option Nat) (sec_per_frame : Nat)
    (nodes : List Node) : Option Frames :=
  (ingest_all pixel_func sec_per_frame init_state nodes).map finalize_frames

/-- C6 counterexample: at `T = EPOCH + 2^32` (a valid 64-bit timestamp,
year 2141) the `as u32` narrowing makes the computed frame number 0 instead
of `floor((T − EPOCH)/S) = 2^32`, and the function is not non-decreasing
across the wrap. -/
theorem c6_frame_number_counterexample :
    osm_epoch ≤ osm_epoch + 4294967296 ∧
    frame_number (osm_epoch + 4294967296) 1 = 0 ∧
    (osm_epoch + 4294967296 - osm_epoch) / 1 = 4294967296 ∧
    osm_epoch + 4294967295 ≤ osm_epoch + 4294967296 ∧
    frame_number (osm_epoch + 4294967295) 1 = 4294967295 := by
  refine ⟨by omega, ?_, by omega, by omega, ?_⟩ <;> decide

/-- C6 (amended): for timestamps at least EPOCH whose offset from EPOCH fits
in 32 bits, and any frame duration S > 0, the computed frame number is
`floor((T − EPOCH)/S)`, and it is non-decreasing in the timestamp. -/
theorem c6_frame_number_floor (S T1 T2 : Nat) (hS : 0 < S)
    (h1 : osm_epoch ≤ T1) (hb1 : T1 - osm_epoch < u32_size)
    (h2 : osm_epoch ≤ T2) (hb2 : T2 - osm_epoch < u32_size)
    (hle : T1 ≤ T2) :
    frame_number T1 S = (T1 - osm_epoch) / S ∧
    frame_number T2 S = (T2 - osm_epoch) / S ∧
    frame_number T1 S ≤ frame_number T2 S := by
  unfold frame_number
  rw [Nat.mod_eq_of_lt hb1, Nat.mod_eq_of_lt hb2]
  exact ⟨rfl, rfl, Nat.div_le_div_right (by omega)⟩

/-- Witness for C6 (amended) at S = 86400 and two concrete timestamps. -/
theorem c6_frame_number_floor_witness :
    (0 < 86400 ∧ osm_epoch ≤ osm_epoch + 100000 ∧ osm_epoch + 100000 - osm_epoch < u32_size ∧
      osm_epoch ≤ osm_epoch + 200000 ∧ osm_epoch + 200000 - osm_epoch < u32_size ∧
      osm_epoch + 100000 ≤ osm_epoch + 200000) ∧
    (frame_number (osm_epoch + 100000) 86400 = (osm_epoch + 100000 - osm_epoch) / 86400 ∧
     frame_number (osm_epoch + 200000) 86400 = (osm_epoch + 200000 - osm_epoch) / 86400 ∧
     frame_number (osm_epoch + 100000) 86400 ≤ frame_number (osm_epoch + 200000) 86400) :=
  ⟨⟨by decide, by omega, by decide, by omega, by decide, by omega⟩,
   c6_frame_number_floor 86400 (osm_epoch + 100000) (osm_epoch + 200000)
     (by decide) (by omega) (by decide) (by omega) (by decide) (by omega)⟩

lemma ingest_all_append (pixel_func : ℚ → ℚ → Option Nat) (sec_per_frame : Nat) :
    ∀ (l1 l2 : List Node) (st : IngestState),
      ingest_all pixel_func sec_per_frame st (l1 ++ l2)
        = match ingest_all pixel_func sec_per_frame st l1 with
          | none => none
          | some st2 => ingest_all pixel_func sec_per_frame st2 l2
  | [], l2, st => rfl
  | node :: rest, l2, st => by
      show (match ingest_step pixel_func sec_per_frame st node with
            | none => none
            | some st2 => ingest_all pixel_func sec_per_frame st2 (rest ++ l2)) = _
      cases h : ingest_step pixel_func sec_per_frame st node with
      | none =>
          simp only [ingest_all, h]
      | some st2 =>
          simp only [ingest_all, h]
          exact ingest_all_append pixel_func sec_per_frame rest l2 st2

lemma sat_incr_min (n : Nat) :
    (if min (n + 1) 65535 < 65535 then min (n + 1) 65535 + 1 else min (n + 1) 65535)
      = min (n + 1 + 1) 65535 := by
  split <;> omega

set_option maxRecDepth 8192 in
lemma ingest_replicate (n : Nat) :
    ingest_all (fun _ _ => some 5) 10 init_state
        (List.replicate (n + 1) (⟨some 1, some 2, osm_epoch + 3⟩ : Node))
      = some ⟨0, 0, [(0, [(5, min (n + 1) 65535)])]⟩ := by
  induction n with
  | zero => decide
  | succ m ih =>
      rw [List.replicate_succ' (m + 1), ingest_all_append, ih]
      have hstep : ingest_step (fun _ _ => some 5) 10
          ⟨0, 0, [(0, [(5, min (m + 1) 65535)])]⟩ ⟨some 1, some 2, osm_epoch + 3⟩
          = some ⟨0, 0, [(0, [(5, if min (m + 1) 65535 < 65535
              then min (m + 1) 65535 + 1 else min (m + 1) 65535)])]⟩ := rfl
      show ingest_all (fun _ _ => some 5) 10 ⟨0, 0, [(0, [(5, min (m + 1) 65535)])]⟩
          [⟨some 1, some 2, osm_epoch + 3⟩] = _
      simp only [ingest_all, hstep, sat_incr_min]

lemma finalize_frames_single (ps : List (Nat × Nat)) :
    finalize_frames ⟨0, 0, [(0, ps)]⟩ = [(0, ps)] := by
  show (List.range (((0 + u32_size - 0) % u32_size + 1) % u32_size)).map (fun frame_no =>
      match List.lookup ((frame_no + 0) % u32_size) [(0, ps)] with
      | none => (frame_no, [])
      | some pixels => (frame_no, pixels)) = [(0, ps)]
  rw [show (((0 + u32_size - 0) % u32_size + 1) % u32_size) = 1 from rfl,
    show List.range 1 = [0] from rfl]
  simp only [List.map_cons, List.map_nil]
  rw [show List.lookup (((0 : Nat) + 0) % u32_size) [(0, ps)] = some ps from rfl]

/-- C7: aggregated counts during ingestion saturate at 65535 and never wrap:
after n events at the same (frame, pixel) the stored count is `min n 65535`,
so 70,000 events yield 65535 (further increments past 65535 change nothing). -/
theorem c7_count_saturation :
    (∀ n : Nat,
      read_pbf (fun _ _ => some 5) 10
          (List.replicate (n + 1) (⟨some 1, some 2, osm_epoch + 3⟩ : Node))
        = some [(0, [(5, min (n + 1) 65535)])]) ∧
    read_pbf (fun _ _ => some 5) 10
        (List.replicate 70000 (⟨some 1, some 2, osm_epoch + 3⟩ : Node))
      = some [(0, [(5, 65535)])] := by
  have hmain : ∀ n : Nat,
      read_pbf (fun _ _ => some 5) 10
          (List.replicate (n + 1) (⟨some 1, some 2, osm_epoch + 3⟩ : Node))
        = some [(0, [(5, min (n + 1) 65535)])] := by
    intro n
    unfold read_pbf
    rw [ingest_replicate n]
    show some (finalize_frames ⟨0, 0, [(0, [(5, min (n + 1) 65535)])]⟩) = _
    rw [finalize_frames_single]
  refine ⟨hmain, ?_⟩
  have h2 := hmain 69999
  rw [show (69999 : Nat) + 1 = 70000 from rfl, show min (70000 : Nat) 65535 = 65535 from by omega] at h2
  exact h2

/-! ### Well-formedness of the ingestion state -/

/-- Both frame markers fit in `u32` (true of every reachable state). -/
def st_bounded (st : IngestState) : Prop :=
  st.first_frame_no < u32_size ∧ st.last_frame_no < u32_size

/-- The state has seen at least one frame: min ≤ max, both in `u32` range. -/
def st_good (st : IngestState) : Prop :=
  st.first_frame_no ≤ st.last_frame_no ∧ st.first_frame_no < u32_size ∧
    st.last_frame_no < u32_size

lemma frame_number_lt_u32 (t s : Nat) : frame_number t s < u32_size :=
  lt_of_le_of_lt (Nat.div_le_self _ _) (Nat.mod_lt _ (by norm_num [u32_size]))

lemma ingest_step_shape (pixel_func : ℚ → ℚ → Option Nat) (sec_per_frame : Nat)
    (st : IngestState) (node : Node) (st2 : IngestState)
    (h : ingest_step pixel_func sec_per_frame st node = some st2) :
    (st2 = st ∧ (node.lat = none ∨ node.lon = none)) ∨
    (∃ f, f < u32_size ∧
      st2.first_frame_no = (if f < st.first_frame_no then f else st.first_frame_no) ∧
      st2.last_frame_no = (if f > st.last_frame_no then f else st.last_frame_no) ∧
      node.lat.isSome ∧ node.lon.isSome) := by
  obtain ⟨la, lo, ts⟩ := node
  cases la with
  | none =>
      exact Or.inl ⟨(Option.some.inj h).symm, Or.inl rfl⟩
  | some lat =>
      cases lo with
      | none =>
          exact Or.inl ⟨(Option.some.inj h).symm, Or.inr rfl⟩
      | some lon =>
          right
          simp only [ingest_step] at h
          rcases Nat.lt_or_ge ts osm_epoch with hlt | hge
          · rw [if_pos hlt] at h
            exact absurd h (by simp)
          · rw [if_neg (not_lt.mpr hge)] at h
            refine ⟨frame_number ts sec_per_frame, frame_number_lt_u32 _ _, ?_⟩
            cases hpf : pixel_func lat lon with
            | none =>
                rw [hpf] at h
                have := (Option.some.inj h).symm
                subst this
                exact ⟨rfl, rfl, rfl, rfl⟩
            | some pixel_idx =>
                rw [hpf] at h
                have := (Option.some.inj h).symm
                subst this
                exact ⟨rfl, rfl, rfl, rfl⟩

lemma ingest_step_bounded (pixel_func : ℚ → ℚ → Option Nat) (sec_per_frame : Nat)
    (st : IngestState) (node : Node) (st2 : IngestState)
    (h : ingest_step pixel_func sec_per_frame st node = some st2)
    (hb : st_bounded st) : st_bounded st2 := by
  rcases ingest_step_shape pixel_func sec_per_frame st node st2 h with ⟨heq, _⟩ | ⟨f, hf, h1, h2, _⟩
  · rw [heq]
    exact hb
  · obtain ⟨hb1, hb2⟩ := hb
    constructor
    · rw [h1]
      split_ifs <;> omega
    · rw [h2]
      split_ifs <;> omega

lemma ingest_step_good (pixel_func : ℚ → ℚ → Option Nat) (sec_per_frame : Nat)
    (st : IngestState) (node : Node) (st2 : IngestState)
    (h : ingest_step pixel_func sec_per_frame st node = some st2)
    (hg : st_good st) : st_good st2 := by
  rcases ingest_step_shape pixel_func sec_per_frame st node st2 h with ⟨heq, _⟩ | ⟨f, hf, h1, h2, _⟩
  · rw [heq]
    exact hg
  · obtain ⟨hg1, hg2, hg3⟩ := hg
    refine ⟨?_, ?_, ?_⟩
    · rw [h1, h2]
      split_ifs <;> omega
    · rw [h1]
      split_ifs <;> omega
    · rw [h2]
      split_ifs <;> omega

lemma ingest_step_good_of_valid (pixel_func : ℚ → ℚ → Option Nat) (sec_per_frame : Nat)
    (st : IngestState) (node : Node) (st2 : IngestState)
    (h : ingest_step pixel_func sec_per_frame st node = some st2)
    (hla : node.lat.isSome) (hlo : node.lon.isSome)
    (hb : st_bounded st) : st_good st2 := by
  rcases ingest_step_shape pixel_func sec_per_frame st node st2 h with ⟨_, hnone⟩ | ⟨f, hf, h1, h2, _⟩
  · rcases hnone with hn | hn
    · rw [hn] at hla
      exact absurd hla (by simp)
    · rw [hn] at hlo
      exact absurd hlo (by simp)
  · obtain ⟨hb1, hb2⟩ := hb
    refine ⟨?_, ?_, ?_⟩
    · rw [h1, h2]
      split_ifs <;> omega
    · rw [h1]
      split_ifs <;> omega
    · rw [h2]
      split_ifs <;> omega

lemma ingest_all_props (pixel_func : ℚ → ℚ → Option Nat) (sec_per_frame : Nat) :
    ∀ (nodes : List Node) (st st2 : IngestState),
      ingest_all pixel_func sec_per_frame st nodes = some st2 → st_bounded st →
      st_bounded st2 ∧ (st_good st → st_good st2) ∧
        ((∃ n ∈ nodes, n.lat.isSome ∧ n.lon.isSome) → st_good st2)
  | [], st, st2, h, hb => by
      have heq : st = st2 := Option.some.inj h
      subst heq
      exact ⟨hb, fun hg => hg, fun ⟨n, hn, _⟩ => absurd hn (List.not_mem_nil n)⟩
  | node :: rest, st, st2, h, hb => by
      cases hstep : ingest_step pixel_func sec_per_frame st node with
      | none =>
          have e : ingest_all pixel_func sec_per_frame st (node :: rest)
              = match ingest_step pixel_func sec_per_frame st node with
                | none => none
                | some s => ingest_all pixel_func sec_per_frame s rest := rfl
          rw [e, hstep] at h
          exact absurd h (by simp)
      | some st1 =>
          have h2 : ingest_all pixel_func sec_per_frame st1 rest = some st2 := by
            have e : ingest_all pixel_func sec_per_frame st (node :: rest)
                = match ingest_step pixel_func sec_per_frame st node with
                  | none => none
                  | some s => ingest_all pixel_func sec_per_frame s rest := rfl
            rw [e, hstep] at h
            exact h
          have hb1 := ingest_step_bounded pixel_func sec_per_frame st node st1 hstep hb
          obtain ⟨b2, g2, v2⟩ := ingest_all_props pixel_func sec_per_frame rest st1 st2 h2 hb1
          refine ⟨b2, fun hg => g2 (ingest_step_good pixel_func sec_per_frame st node st1 hstep hg), ?_⟩
          rintro ⟨n, hn, hna, hno⟩
          rcases List.mem_cons.mp hn with heq | hmem
          · subst heq
            exact g2 (ingest_step_good_of_valid pixel_func sec_per_frame st n st1 hstep hna hno hb)
          · exact v2 ⟨n, hmem, hna, hno⟩

lemma finalize_frames_eq (st : IngestState) :
    finalize_frames st
      = (List.range (((st.last_frame_no + u32_size - st.first_frame_no) % u32_size + 1) % u32_size)).map
          (fun frame_no =>
            match st.results.lookup ((frame_no + st.first_frame_no) % u32_size) with
            | none => (frame_no, [])
            | some pixels => (frame_no, pixels)) := rfl

/-- C2 (amended): for every event stream containing at least one event with
both coordinates present, on which ingestion completes (no pre-epoch
timestamp), and whose observed frame span `last − first + 1` is below `2^32`,
the finalized frame sequence has exactly `last − first + 1` records; the
record at position i carries renumbered frame number i (so the first observed
frame becomes 0, ascending), holding the deltas recorded for original frame
`first + i`, or an empty delta sequence if that frame received none. -/
theorem c2_dense_numbering (pixel_func : ℚ → ℚ → Option Nat) (sec_per_frame : Nat)
    (nodes : List Node) (st : IngestState)
    (hfold : ingest_all pixel_func sec_per_frame init_state nodes = some st)
    (hvalid : ∃ n ∈ nodes, n.lat.isSome ∧ n.lon.isSome)
    (hspan : st.last_frame_no - st.first_frame_no + 1 < u32_size) :
    read_pbf pixel_func sec_per_frame nodes = some (finalize_frames st) ∧
    (finalize_frames st).length = st.last_frame_no - st.first_frame_no + 1 ∧
    ∀ i < st.last_frame_no - st.first_frame_no + 1,
      (finalize_frames st).get? i
        = some (i, (st.results.lookup (i + st.first_frame_no)).getD []) := by
  have hgood : st_good st :=
    (ingest_all_props pixel_func sec_per_frame nodes init_state st hfold
      ⟨by norm_num [init_state, u32_size], by norm_num [init_state, u32_size]⟩).2.2 hvalid
  obtain ⟨hfl, hfu, hlu⟩ := hgood
  have hnum : ((st.last_frame_no + u32_size - st.first_frame_no) % u32_size + 1) % u32_size
      = st.last_frame_no - st.first_frame_no + 1 := by
    have e1 : st.last_frame_no + u32_size - st.first_frame_no
        = (st.last_frame_no - st.first_frame_no) + u32_size := by omega
    rw [e1, Nat.add_mod_right,
      Nat.mod_eq_of_lt (show st.last_frame_no - st.first_frame_no < u32_size by omega),
      Nat.mod_eq_of_lt hspan]
  refine ⟨?_, ?_, ?_⟩
  · unfold read_pbf
    rw [hfold]
    rfl
  · rw [finalize_frames_eq, hnum, List.length_map, List.length_range]
  · intro i hi
    rw [finalize_frames_eq, hnum, List.get?_map, List.get?_range hi, Option.map_some']
    rw [show (i + st.first_frame_no) % u32_size = i + st.first_frame_no from
      Nat.mod_eq_of_lt (by omega)]
    cases hl : st.results.lookup (i + st.first_frame_no) with
    | none => rfl
    | some pixels => rfl

/-- Witness for C2 (amended) on a one-event stream. -/
theorem c2_dense_numbering_witness :
    (ingest_all (fun _ _ => some 5) 10 init_state [⟨some 1, some 2, osm_epoch + 3⟩]
        = some ⟨0, 0, [(0, [(5, 1)])]⟩) ∧
    ((0 : Nat) - 0 + 1 < u32_size) ∧
    read_pbf (fun _ _ => some 5) 10 [⟨some 1, some 2, osm_epoch + 3⟩]
      = some (finalize_frames ⟨0, 0, [(0, [(5, 1)])]⟩) ∧
    (finalize_frames ⟨0, 0, [(0, [(5, 1)])]⟩).length = 0 - 0 + 1 ∧
    (finalize_frames ⟨0, 0, [(0, [(5, 1)])]⟩).get? 0
      = some (0, (List.lookup ((0 : Nat) + 0) [(0, [(5, 1)])]).getD []) := by
  have hm := c2_dense_numbering (fun _ _ => some 5) 10 [⟨some 1, some 2, osm_epoch + 3⟩]
      ⟨0, 0, [(0, [(5, 1)])]⟩ (by decide)
      ⟨⟨some 1, some 2, osm_epoch + 3⟩, by simp, rfl, rfl⟩ (by decide)
  exact ⟨by decide, by decide, hm.1, hm.2.1, hm.2.2 0 (by decide)⟩

/-- C2 counterexample: a two-event stream whose frames span the whole `u32`
range (frames 0 and 2^32 − 1, so the claimed record count is 2^32) makes
`last_frame_no - first_frame_no + 1` wrap to 0 and `read_pbf` emit an empty
frame sequence instead of 2^32 records. -/
theorem c2_dense_numbering_counterexample :
    ingest_all (fun _ _ => some 0) 1 init_state
        [⟨some 0, some 0, osm_epoch⟩, ⟨some 0, some 0, osm_epoch + 4294967295⟩]
      = some ⟨0, 4294967295, [(0, [(0, 1)]), (4294967295, [(0, 1)])]⟩ ∧
    read_pbf (fun _ _ => some 0) 1
        [⟨some 0, some 0, osm_epoch⟩, ⟨some 0, some 0, osm_epoch + 4294967295⟩]
      = some [] ∧
    (4294967295 : Nat) - 0 + 1 = 4294967296 ∧
    ([] : Frames).length ≠ 4294967296 := by
  refine ⟨by decide, by decide, by decide, by decide⟩

/-- C10: on a stream with no event carrying both coordinates, the state keeps
its initial `first_frame_no = u32::MAX` and `last_frame_no = 0`, and the
wrapping `last - first + 1` frame-count computation yields 2, so `read_pbf`
produces two bogus records rather than an empty frame sequence (in a debug
build the same subtraction panics); the dense-numbering result is only
well-defined for streams with at least one valid event. -/
theorem c10_empty_stream_underflow :
    ingest_all (fun _ _ => some 0) 1 init_state [] = some init_state ∧
    init_state.first_frame_no = 4294967295 ∧
    init_state.last_frame_no = 0 ∧
    read_pbf (fun _ _ => some 0) 1 [] = some [(0, []), (1, [])] ∧
    read_pbf (fun _ _ => some 0) 1 [⟨none, some 0, 5⟩] = some [(0, []), (1, [])] ∧
    [(0, []), (1, [])] ≠ ([] : Frames) := by
  refine ⟨by decide, by decide, by decide, by decide, by decide, by decide⟩

/-! ## Equirectangular projection (`latlon_to_pixel_index`, lines 201-223) -/

/-- `latlon_to_pixel_index` (lines 201-223). `v as u32` on the non-negative
`f32` products computed here is floor; for a (hypothetical) negative value the
Rust cast saturates to 0, which `Int.toNat ∘ Int.floor` also yields. The
`assert!(i < width*height)` of line 220 is not part of the value; it is
discharged as the in-range part of the theorem below. -/
def latlon_to_pixel_index (lat lon : ℚ) (width height : Nat)
    (bbox : ℚ × ℚ × ℚ × ℚ) : Option Nat :=
  let left := bbox.1
  let bottom := bbox.2.1
  let right := bbox.2.2.1
  let top := bbox.2.2.2
  let bbox_width := right - left
  let bbox_height := top - bottom
  if lat ≥ top ∨ lat ≤ bottom ∨ lon ≥ right ∨ lon ≤ left then none
  else
    let lat0 := top - lat
    let lon0 := lon - left
    let x := (Int.floor (lon0 / bbox_width * (width : ℚ))).toNat
    let y := (Int.floor (lat0 / bbox_height * (height : ℚ))).toNat
    some (y * width + x)

/-- C5: a point on or beyond any bbox edge maps to `none`; a point strictly
inside the bbox (with positive canvas dimensions) maps to a pixel index in
`[0, width*height)`; and for bbox = [−10,−10,10,10], width = height = 20,
the point (lat 5, lon 5) maps to pixel index 115. -/
theorem c5_equirectangular (lat lon : ℚ) (width height : Nat)
    (left bottom right top : ℚ) :
    ((lat ≥ top ∨ lat ≤ bottom ∨ lon ≥ right ∨ lon ≤ left) →
      latlon_to_pixel_index lat lon width height (left, bottom, right, top) = none) ∧
    (bottom < lat → lat < top → left < lon → lon < right → 0 < width → 0 < height →
      ∃ i, latlon_to_pixel_index lat lon width height (left, bottom, right, top) = some i ∧
        i < width * height) ∧
    latlon_to_pixel_index 5 5 20 20 (-10, -10, 10, 10) = some 115 := by
  refine ⟨?_, ?_, ?_⟩
  case refine_3 =>
    norm_num [latlon_to_pixel_index]
    decide
  · intro h
    unfold latlon_to_pixel_index
    rw [if_pos h]
  · intro hb ht hl hr hw hh
    have hcond : ¬(lat ≥ top ∨ lat ≤ bottom ∨ lon ≥ right ∨ lon ≤ left) := by
      push_neg
      exact ⟨ht, hb, hr, hl⟩
    refine ⟨(Int.floor ((top - lat) / (top - bottom) * (height : ℚ))).toNat * width
        + (Int.floor ((lon - left) / (right - left) * (width : ℚ))).toNat, ?_, ?_⟩
    · unfold latlon_to_pixel_index
      rw [if_neg hcond]
    · have hbwpos : (0 : ℚ) < right - left := by linarith
      have hbhpos : (0 : ℚ) < top - bottom := by linarith
      have hqx0 : (0 : ℚ) ≤ (lon - left) / (right - left) * (width : ℚ) :=
        mul_nonneg (le_of_lt (div_pos (by linarith) hbwpos)) (Nat.cast_nonneg width)
      have hqy0 : (0 : ℚ) ≤ (top - lat) / (top - bottom) * (height : ℚ) :=
        mul_nonneg (le_of_lt (div_pos (by linarith) hbhpos)) (Nat.cast_nonneg height)
      have hqx1 : (lon - left) / (right - left) * (width : ℚ) < (width : ℚ) := by
        have h1 : (lon - left) / (right - left) < 1 :=
          (div_lt_one hbwpos).mpr (by linarith)
        have hwq : (0 : ℚ) < (width : ℚ) := by exact_mod_cast hw
        calc (lon - left) / (right - left) * (width : ℚ)
            < 1 * (width : ℚ) := by
              exact mul_lt_mul_of_pos_right h1 hwq
          _ = (width : ℚ) := one_mul _
      have hqy1 : (top - lat) / (top - bottom) * (height : ℚ) < (height : ℚ) := by
        have h1 : (top - lat) / (top - bottom) < 1 :=
          (div_lt_one hbhpos).mpr (by linarith)
        have hhq : (0 : ℚ) < (height : ℚ) := by exact_mod_cast hh
        calc (top - lat) / (top - bottom) * (height : ℚ)
            < 1 * (height : ℚ) := by
              exact mul_lt_mul_of_pos_right h1 hhq
          _ = (height : ℚ) := one_mul _
      have hx0 : 0 ≤ Int.floor ((lon - left) / (right - left) * (width : ℚ)) :=
        Int.le_floor.mpr (by exact_mod_cast hqx0)
      have hy0 : 0 ≤ Int.floor ((top - lat) / (top - bottom) * (height : ℚ)) :=
        Int.le_floor.mpr (by exact_mod_cast hqy0)
      have hx1 : Int.floor ((lon - left) / (right - left) * (width : ℚ)) < (width : ℤ) :=
        Int.floor_lt.mpr (by exact_mod_cast hqx1)
      have hy1 : Int.floor ((top - lat) / (top - bottom) * (height : ℚ)) < (height : ℤ) :=
        Int.floor_lt.mpr (by exact_mod_cast hqy1)
      have hxn : (Int.floor ((lon - left) / (right - left) * (width : ℚ))).toNat < width := by
        omega
      have hyn : (Int.floor ((top - lat) / (top - bottom) * (height : ℚ))).toNat < height := by
        omega
      set x := (Int.floor ((lon - left) / (right - left) * (width : ℚ))).toNat
      set y := (Int.floor ((top - lat) / (top - bottom) * (height : ℚ))).toNat
      calc y * width + x < y * width + width := Nat.add_lt_add_left hxn _
        _ = (y + 1) * width := (Nat.succ_mul y width).symm
        _ ≤ height * width := Nat.mul_le_mul_right width hyn
        _ = width * height := Nat.mul_comm height width

/-- Witness for C5: boundary point (lat = top) and interior point (1,1) of the
concrete bbox [−10,−10,10,10] on a 20×20 canvas. -/
theorem c5_equirectangular_witness :
    latlon_to_pixel_index 10 0 20 20 (-10, -10, 10, 10) = none ∧
    (∃ i, latlon_to_pixel_index 1 1 20 20 (-10, -10, 10, 10) = some i ∧ i < 20 * 20) ∧
    latlon_to_pixel_index 5 5 20 20 (-10, -10, 10, 10) = some 115 :=
  ⟨(c5_equirectangular 10 0 20 20 (-10) (-10) 10 10).1 (Or.inl (by norm_num)),
   (c5_equirectangular 1 1 20 20 (-10) (-10) 10 10).2.1 (by norm_num) (by norm_num)
     (by norm_num) (by norm_num) (by norm_num) (by norm_num),
   (c5_equirectangular 5 5 20 20 (-10) (-10) 10 10).2.2⟩

/-! ## Intermediate serializer (`write_frames` lines 152-178, `read_metadata`
lines 180-185, `read_frames` lines 187-199). The text file is modelled as a
list of lines, each line a list of characters. The four bbox and two centre
fields are `f32`s rendered by Rust's `{}` formatting; they are carried as
their rendered character strings. -/

abbrev Line := List Char

/-- `enum Projection` (line 342). -/
inductive Projection
  | Ortho
  | Equirect
deriving DecidableEq

/-- The projection keyword written at lines 161-168. -/
def projection_name : Projection → Line
  | .Ortho => "ortho".toList
  | .Equirect => "equirect".toList

/-- Decimal rendering of a natural number, as Rust's `{}` formatting. -/
def nat_to_digits (n : Nat) : List Char :=
  if h : n < 10 then [Nat.digitChar n]
  else nat_to_digits (n / 10) ++ [Nat.digitChar (n % 10)]
decreasing_by exact Nat.div_lt_self (by omega) (by omega)

/-- One decimal digit of `str::parse`. -/
def parse_digit (c : Char) : Option Nat :=
  if 48 ≤ c.toNat ∧ c.toNat ≤ 57 then some (c.toNat - 48) else none

/-- The accumulator loop of `str::parse`. -/
def parse_digits_acc : Nat → List Char → Option Nat
  | acc, [] => some acc
  | acc, c :: cs =>
      match parse_digit c with
      | none => none
      | some d => parse_digits_acc (acc * 10 + d) cs

/-- Rust `str::parse::<uN>` with exclusive upper bound `bound`: a nonempty
all-digit string whose value fits the type. -/
def parse_nat_below (bound : Nat) (cs : List Char) : Option Nat :=
  if cs.isEmpty then none
  else
    match parse_digits_acc 0 cs with
    | none => none
    | some n => if n < bound then some n else none

/-- `str::parse::<u32>`. -/
def parse_u32 (cs : Line) : Option Nat := parse_nat_below u32_size cs

/-- `str::parse::<u16>`. -/
def parse_u16 (cs : Line) : Option Nat := parse_nat_below 65536 cs

/-- Rust's `str::split(sep)` on a one-character separator. -/
def split_on_char (sep : Char) : List Char → List (List Char)
  | [] => [[]]
  | c :: cs =>
      match split_on_char sep cs with
      | [] => [[]]
      | f :: rest => if c = sep then [] :: f :: rest else (c :: f) :: rest

/-- Joining fields with a one-character separator (inverse of `split`). -/
def join_sep (sep : Char) : List (List Char) → List Char
  | [] => []
  | f :: rest => f ++ rest.flatMap (fun g => sep :: g)

/-- A `metadata <key> <value>` line as written by lines 155-168. -/
def meta_line (key val : Line) : Line :=
  "metadata ".toList ++ key ++ ' ' :: val

/-- One frame body line as written by lines 171-177:
the frame number, then `,pixel,count` for every delta. -/
def frame_line (fr : Nat × List (Nat × Nat)) : Line :=
  nat_to_digits fr.1
    ++ fr.2.flatMap (fun p => ',' :: (nat_to_digits p.1 ++ ',' :: nat_to_digits p.2))

/-- `write_frames` (lines 152-178): seven metadata lines, a blank line, then
one line per frame record in order. -/
def write_frames (frames : Frames) (version : Line) (height width sec_per_frame : Nat)
    (bbox0 bbox1 bbox2 bbox3 centre0 centre1 : Line) (projection : Projection) : List Line :=
  [meta_line "version".toList version,
   meta_line "height".toList (nat_to_digits height),
   meta_line "width".toList (nat_to_digits width),
   meta_line "sec_per_frame".toList (nat_to_digits sec_per_frame),
   meta_line "bbox".toList (join_sep ',' [bbox0, bbox1, bbox2, bbox3]),
   meta_line "centre".toList (join_sep ',' [centre0, centre1]),
   meta_line "projection".toList (projection_name projection),
   []] ++ frames.map frame_line

/-- The skip predicate of `read_frames` (line 192):
`x.starts_with("metadata ") || x.len() == 0`. -/
def is_meta_or_empty (l : Line) : Bool :=
  "metadata ".toList.isPrefixOf l || l.isEmpty

/-- `chunks(2)` + parse of line 194. A dangling odd field means the
`pair[1]` index panics (`none`), as does any parse failure. -/
def parse_pairs : List Line → Option (List (Nat × Nat))
  | [] => some []
  | [_] => none
  | a :: b :: rest =>
      match parse_u32 a, parse_u16 b, parse_pairs rest with
      | some p, some c, some ps => some ((p, c) :: ps)
      | _, _, _ => none

/-- One body line of `read_frames` (lines 193-195): first comma field is the
frame number, the remaining fields pair up into deltas. -/
def parse_frame_line (l : Line) : Option (Nat × List (Nat × Nat)) :=
  match split_on_char ',' l with
  | [] => none
  | f :: rest =>
      match parse_u32 f, parse_pairs rest with
      | some fr, some ps => some (fr, ps)
      | _, _ => none

/-- The body loop of `read_frames`. -/
def parse_frame_lines : List Line → Option Frames
  | [] => some []
  | l :: ls =>
      match parse_frame_line l, parse_frame_lines ls with
      | some f, some fs => some (f :: fs)
      | _, _ => none

/-- `read_frames` (lines 187-199): skip the metadata prefix and the blank
line, then parse every body line. -/
def read_frames (lines : List Line) : Option Frames :=
  parse_frame_lines (lines.dropWhile is_meta_or_empty)

/-- One metadata line of `read_metadata` (line 182):
`x.split(" ").skip(1).take(2)` then index words 0 and 1 (panic if absent). -/
def parse_meta_line (l : Line) : Option (Line × Line) :=
  match (split_on_char ' ' l).drop 1 with
  | k :: v :: _ => some (k, v)
  | _ => none

/-- The line loop of `read_metadata`. -/
def read_metadata_lines : List Line → Option (List (Line × Line))
  | [] => some []
  | l :: ls =>
      match parse_meta_line l, read_metadata_lines ls with
      | some kv, some rest => some (kv :: rest)
      | _, _ => none

/-- `read_metadata` (lines 180-185): key/value pairs of the nonempty line
prefix (the association list stands for the `HashMap`). -/
def read_metadata (lines : List Line) : Option (List (Line × Line)) :=
  read_metadata_lines (lines.takeWhile (fun l => !l.isEmpty))

/-! ### Digit round-trip lemmas -/

lemma nat_to_digits_ne_nil (n : Nat) : nat_to_digits n ≠ [] := by
  rw [nat_to_digits]
  split
  · simp
  · simp

lemma parse_digit_digitChar : ∀ d < 10, parse_digit (Nat.digitChar d) = some d := by decide

lemma digit_toNat_range : ∀ d < 10, 48 ≤ (Nat.digitChar d).toNat ∧ (Nat.digitChar d).toNat ≤ 57 := by
  decide

lemma nat_to_digits_mem_range (n : Nat) :
    ∀ c ∈ nat_to_digits n, 48 ≤ c.toNat ∧ c.toNat ≤ 57 := by
  induction n using Nat.strong_induction_on with
  | _ n ih =>
      intro c hc
      rw [nat_to_digits] at hc
      split at hc
      · rw [List.mem_singleton] at hc
        subst hc
        exact digit_toNat_range n (by omega)
      · rw [List.mem_append] at hc
        rcases hc with hc | hc
        · exact ih (n / 10) (Nat.div_lt_self (by omega) (by omega)) c hc
        · rw [List.mem_singleton] at hc
          subst hc
          exact digit_toNat_range (n % 10) (Nat.mod_lt n (by omega))

lemma comma_not_mem_digits (n : Nat) : ',' ∉ nat_to_digits n := by
  intro h
  have hr := nat_to_digits_mem_range n ',' h
  have he : (','.toNat) = 44 := rfl
  omega

lemma space_not_mem_digits (n : Nat) : ' ' ∉ nat_to_digits n := by
  intro h
  have hr := nat_to_digits_mem_range n ' ' h
  have he : (' '.toNat) = 32 := rfl
  omega

lemma m_beq_digitChar : ∀ d < 10, ('m' == Nat.digitChar d) = false := by decide

lemma nat_to_digits_head (n : Nat) :
    ∃ d, d < 10 ∧ ∃ t, nat_to_digits n = Nat.digitChar d :: t := by
  induction n using Nat.strong_induction_on with
  | _ n ih =>
      rw [nat_to_digits]
      split
      · exact ⟨n, by omega, [], rfl⟩
      · obtain ⟨d, hd, t, ht⟩ := ih (n / 10) (Nat.div_lt_self (by omega) (by omega))
        exact ⟨d, hd, t ++ [Nat.digitChar (n % 10)], by rw [ht]; rfl⟩

lemma parse_digits_acc_append (acc : Nat) (xs ys : List Char) :
    parse_digits_acc acc (xs ++ ys)
      = match parse_digits_acc acc xs with
        | none => none
        | some a => parse_digits_acc a ys := by
  induction xs generalizing acc with
  | nil => rfl
  | cons c cs ih =>
      simp only [List.cons_append, parse_digits_acc]
      cases hc : parse_digit c with
      | none => rfl
      | some d => exact ih (acc * 10 + d)

lemma parse_digits_acc_nat_to_digits (n : Nat) :
    parse_digits_acc 0 (nat_to_digits n) = some n := by
  induction n using Nat.strong_induction_on with
  | _ n ih =>
      rw [nat_to_digits]
      split
      · rename_i h
        show (match parse_digit (Nat.digitChar n) with
              | none => none
              | some d => parse_digits_acc (0 * 10 + d) []) = some n
        rw [parse_digit_digitChar n h]
        show some (0 * 10 + n) = some n
        rw [Nat.zero_mul, Nat.zero_add]
      · rename_i h
        rw [parse_digits_acc_append, ih (n / 10) (Nat.div_lt_self (by omega) (by omega))]
        show (match parse_digit (Nat.digitChar (n % 10)) with
              | none => none
              | some d => parse_digits_acc (n / 10 * 10 + d) []) = some n
        rw [parse_digit_digitChar (n % 10) (Nat.mod_lt n (by omega))]
        show some (n / 10 * 10 + n % 10) = some n
        congr 1
        omega

lemma parse_nat_below_digits (bound n : Nat) (h : n < bound) :
    parse_nat_below bound (nat_to_digits n) = some n := by
  unfold parse_nat_below
  rw [show (nat_to_digits n).isEmpty = false from by
      cases hd : nat_to_digits n with
      | nil => exact absurd hd (nat_to_digits_ne_nil n)
      | cons c cs => rfl]
  rw [if_neg (by simp), parse_digits_acc_nat_to_digits]
  show (if n < bound then some n else none) = some n
  rw [if_pos h]

lemma parse_u32_digits (n : Nat) (h : n < u32_size) :
    parse_u32 (nat_to_digits n) = some n :=
  parse_nat_below_digits u32_size n h

lemma parse_u16_digits (n : Nat) (h : n < 65536) :
    parse_u16 (nat_to_digits n) = some n :=
  parse_nat_below_digits 65536 n h

/-! ### Split/join round-trip lemmas -/

lemma split_on_char_ne_nil (sep : Char) : ∀ l : List Char, split_on_char sep l ≠ []
  | [] => by simp [split_on_char]
  | c :: cs => by
      unfold split_on_char
      cases h : split_on_char sep cs with
      | nil => simp
      | cons f rest =>
          by_cases hc : c = sep <;> simp [hc]

lemma split_on_char_append_no_sep (sep : Char) :
    ∀ (f : List Char), sep ∉ f → ∀ (cs : List Char) (g : List Char) (rest : List (List Char)),
      split_on_char sep cs = g :: rest →
      split_on_char sep (f ++ cs) = (f ++ g) :: rest
  | [], _, cs, g, rest, h => by simpa using h
  | c :: f2, hf, cs, g, rest, h => by
      have hc : c ≠ sep := fun e => hf (e ▸ List.mem_cons_self c f2)
      have ih := split_on_char_append_no_sep sep f2 (fun m => hf (List.mem_cons_of_mem c m))
        cs g rest h
      show split_on_char sep (c :: (f2 ++ cs)) = ((c :: f2) ++ g) :: rest
      unfold split_on_char
      rw [ih]
      show (if c = sep then [] :: (f2 ++ g) :: rest else (c :: (f2 ++ g)) :: rest)
          = ((c :: f2) ++ g) :: rest
      rw [if_neg hc]
      rfl

lemma join_sep_cons₂ (sep : Char) (f g : List Char) (rest : List (List Char)) :
    join_sep sep (f :: g :: rest) = f ++ sep :: join_sep sep (g :: rest) := by
  simp [join_sep, List.flatMap_cons]

lemma split_join (sep : Char) :
    ∀ fields : List (List Char), fields ≠ [] → (∀ f ∈ fields, sep ∉ f) →
      split_on_char sep (join_sep sep fields) = fields
  | [], h, _ => absurd rfl h
  | [f], _, hmem => by
      have hf : sep ∉ f := hmem f (List.mem_singleton_self f)
      have h0 : join_sep sep [f] = f ++ [] := by simp [join_sep]
      rw [h0, split_on_char_append_no_sep sep f hf [] [] [] rfl, List.append_nil]
  | f :: g :: rest, _, hmem => by
      have hf : sep ∉ f := hmem f (List.mem_cons_self f _)
      have htail : split_on_char sep (join_sep sep (g :: rest)) = g :: rest :=
        split_join sep (g :: rest) (by simp) (fun x hx => hmem x (List.mem_cons_of_mem f hx))
      rw [join_sep_cons₂]
      have hsep : split_on_char sep (sep :: join_sep sep (g :: rest)) = [] :: g :: rest := by
        show (match split_on_char sep (join_sep sep (g :: rest)) with
              | [] => [[]]
              | f2 :: rest2 => if sep = sep then [] :: f2 :: rest2 else (sep :: f2) :: rest2)
            = [] :: g :: rest
        rw [htail]
        show (if sep = sep then [] :: g :: rest else (sep :: g) :: rest) = [] :: g :: rest
        rw [if_pos rfl]
      rw [split_on_char_append_no_sep sep f hf _ [] (g :: rest) hsep]
      rw [List.append_nil]

/-! ### Frame-line round trip -/

lemma flatMap_pairs_comma (ps : List (Nat × Nat)) :
    (ps.flatMap (fun p => [nat_to_digits p.1, nat_to_digits p.2])).flatMap (fun g => ',' :: g)
      = ps.flatMap (fun p => ',' :: (nat_to_digits p.1 ++ ',' :: nat_to_digits p.2)) := by
  induction ps with
  | nil => rfl
  | cons p ps ih =>
      simp only [List.flatMap_cons, List.flatMap_append, List.flatMap_nil, List.append_nil,
        ih, List.cons_append, List.append_assoc, List.nil_append]

lemma frame_line_eq_join (fr : Nat × List (Nat × Nat)) :
    frame_line fr = join_sep ','
      (nat_to_digits fr.1 :: fr.2.flatMap (fun p => [nat_to_digits p.1, nat_to_digits p.2])) := by
  have hj : join_sep ','
      (nat_to_digits fr.1 :: fr.2.flatMap (fun p => [nat_to_digits p.1, nat_to_digits p.2]))
      = nat_to_digits fr.1
        ++ (fr.2.flatMap (fun p => [nat_to_digits p.1, nat_to_digits p.2])).flatMap
            (fun g => ',' :: g) := rfl
  rw [hj, flatMap_pairs_comma]
  rfl

lemma parse_pairs_digits (ps : List (Nat × Nat))
    (h : ∀ p ∈ ps, p.1 < u32_size ∧ p.2 < 65536) :
    parse_pairs (ps.flatMap (fun p => [nat_to_digits p.1, nat_to_digits p.2])) = some ps := by
  induction ps with
  | nil => rfl
  | cons p ps ih =>
      have hp := h p (List.mem_cons_self p ps)
      rw [List.flatMap_cons]
      show (match parse_u32 (nat_to_digits p.1), parse_u16 (nat_to_digits p.2),
            parse_pairs (ps.flatMap (fun p => [nat_to_digits p.1, nat_to_digits p.2])) with
            | some a, some c, some ps2 => some ((a, c) :: ps2)
            | _, _, _ => none) = some (p :: ps)
      rw [parse_u32_digits p.1 hp.1, parse_u16_digits p.2 hp.2,
        ih (fun q hq => h q (List.mem_cons_of_mem p hq))]

lemma parse_frame_line_round (fr : Nat × List (Nat × Nat)) (h1 : fr.1 < u32_size)
    (h2 : ∀ p ∈ fr.2, p.1 < u32_size ∧ p.2 < 65536) :
    parse_frame_line (frame_line fr) = some fr := by
  rw [frame_line_eq_join]
  unfold parse_frame_line
  rw [split_join ',' _ (by simp) ?_]
  · show (match parse_u32 (nat_to_digits fr.1),
          parse_pairs (fr.2.flatMap (fun p => [nat_to_digits p.1, nat_to_digits p.2])) with
          | some frn, some ps => some (frn, ps)
          | _, _ => none) = some fr
    rw [parse_u32_digits fr.1 h1, parse_pairs_digits fr.2 h2]
  · intro f hf
    rcases List.mem_cons.mp hf with rfl | hf
    · exact comma_not_mem_digits fr.1
    · obtain ⟨p, _, hp⟩ := List.mem_flatMap.mp hf
      rcases List.mem_cons.mp hp with rfl | hp
      · exact comma_not_mem_digits p.1
      · rw [List.mem_singleton] at hp
        subst hp
        exact comma_not_mem_digits p.2

lemma parse_frame_lines_map (frames : Frames)
    (h : ∀ fr ∈ frames, fr.1 < u32_size ∧ ∀ p ∈ fr.2, p.1 < u32_size ∧ p.2 < 65536) :
    parse_frame_lines (frames.map frame_line) = some frames := by
  induction frames with
  | nil => rfl
  | cons fr frames ih =>
      rw [List.map_cons]
      show (match parse_frame_line (frame_line fr), parse_frame_lines (frames.map frame_line) with
            | some f, some fs => some (f :: fs)
            | _, _ => none) = some (fr :: frames)
      have hfr := h fr (List.mem_cons_self fr frames)
      rw [parse_frame_line_round fr hfr.1 hfr.2,
        ih (fun q hq => h q (List.mem_cons_of_mem fr hq))]

/-! ### Skip-predicate facts and prefix manipulation -/

lemma is_meta_or_empty_meta_line (key val : Line) :
    is_meta_or_empty (meta_line key val) = true := by
  unfold is_meta_or_empty meta_line
  rw [List.append_assoc]
  rw [List.isPrefixOf_iff_prefix.mpr (List.prefix_append _ _)]
  rfl

lemma is_meta_or_empty_frame_line (fr : Nat × List (Nat × Nat)) :
    is_meta_or_empty (frame_line fr) = false := by
  obtain ⟨d, hd, t, ht⟩ := nat_to_digits_head fr.1
  unfold is_meta_or_empty frame_line
  rw [ht]
  rw [show ("metadata ".toList : List Char) = 'm' :: "etadata ".toList from rfl]
  rw [List.cons_append]
  show (('m' == Nat.digitChar d && List.isPrefixOf _ _) || (Nat.digitChar d :: _).isEmpty) = false
  rw [m_beq_digitChar d hd, Bool.false_and, Bool.false_or, List.isEmpty_cons]

lemma dropWhile_append_all {α : Type} (p : α → Bool) :
    ∀ (l1 l2 : List α), (∀ a ∈ l1, p a = true) →
      List.dropWhile p (l1 ++ l2) = List.dropWhile p l2
  | [], l2, _ => rfl
  | a :: l1, l2, h => by
      rw [List.cons_append, List.dropWhile_cons, if_pos (h a (List.mem_cons_self a l1))]
      exact dropWhile_append_all p l1 l2 (fun x hx => h x (List.mem_cons_of_mem a hx))

lemma takeWhile_append_stop {α : Type} (p : α → Bool) :
    ∀ (l1 : List α) (x : α) (l2 : List α), (∀ a ∈ l1, p a = true) → p x = false →
      List.takeWhile p (l1 ++ x :: l2) = l1
  | [], x, l2, _, hx => by
      rw [List.nil_append, List.takeWhile_cons, hx]
      rfl
  | a :: l1, x, l2, h, hx => by
      rw [List.cons_append, List.takeWhile_cons, h a (List.mem_cons_self a l1)]
      rw [if_pos rfl]
      rw [takeWhile_append_stop p l1 x l2 (fun y hy => h y (List.mem_cons_of_mem a hy)) hx]

/-! ### Metadata round trip -/

lemma mem_join_sep (sep : Char) :
    ∀ (fields : List (List Char)) (c : Char),
      c ∈ join_sep sep fields → c = sep ∨ ∃ f ∈ fields, c ∈ f
  | [], c, h => absurd h (List.not_mem_nil c)
  | f :: rest, c, h => by
      unfold join_sep at h
      rw [List.mem_append] at h
      rcases h with h | h
      · exact Or.inr ⟨f, List.mem_cons_self f rest, h⟩
      · rw [List.mem_flatMap] at h
        obtain ⟨g, hg, hcg⟩ := h
        rcases List.mem_cons.mp hcg with heq | hcg
        · exact Or.inl heq
        · exact Or.inr ⟨g, List.mem_cons_of_mem f hg, hcg⟩

lemma space_not_mem_join (fields : List (List Char)) (h : ∀ f ∈ fields, ' ' ∉ f) :
    ' ' ∉ join_sep ',' fields := by
  intro hmem
  rcases mem_join_sep ',' fields ' ' hmem with he | ⟨f, hf, hcf⟩
  · exact absurd he (by decide)
  · exact h f hf hcf

lemma space_not_mem_projection_name (projection : Projection) :
    ' ' ∉ projection_name projection := by
  cases projection <;> decide

lemma parse_meta_line_round (key val : Line) (hkey : ' ' ∉ key) (hval : ' ' ∉ val) :
    parse_meta_line (meta_line key val) = some (key, val) := by
  have hm : meta_line key val = join_sep ' ' ["metadata".toList, key, val] := by
    show "metadata ".toList ++ key ++ ' ' :: val = _
    rw [show ("metadata ".toList : List Char) = "metadata".toList ++ [' '] from rfl]
    simp [join_sep, List.flatMap_cons, List.append_assoc]
  rw [hm]
  unfold parse_meta_line
  rw [split_join ' ' _ (by simp) ?_]
  · rfl
  · intro f hf
    simp only [List.mem_cons, List.not_mem_nil, or_false, List.mem_singleton] at hf
    rcases hf with rfl | rfl | rfl
    · decide
    · exact hkey
    · exact hval

lemma not_empty_meta_line (key val : Line) : (!(meta_line key val).isEmpty) = true := rfl

/-- C3: parsing the serialized intermediate text reproduces the frame sequence
exactly (in particular the same frame numbers and per-frame pixel/count
associations), and `read_metadata` recovers every configuration key with
exactly the written value text: numeric fields parse back to the original
numbers, and the comma-joined bbox/centre value strings split back into the
original component renderings; the projection keyword and version string are
recovered verbatim. -/
theorem c3_round_trip (frames : Frames) (version : Line)
    (height width sec_per_frame : Nat)
    (bbox0 bbox1 bbox2 bbox3 centre0 centre1 : Line) (projection : Projection)
    (hh : height < u32_size) (hw : width < u32_size) (hs : sec_per_frame < u32_size)
    (hver : ' ' ∉ version)
    (hbbox : ∀ f ∈ [bbox0, bbox1, bbox2, bbox3], ' ' ∉ f ∧ ',' ∉ f)
    (hcentre : ∀ f ∈ [centre0, centre1], ' ' ∉ f ∧ ',' ∉ f)
    (hframes : ∀ fr ∈ frames, fr.1 < u32_size ∧ ∀ p ∈ fr.2, p.1 < u32_size ∧ p.2 < 65536) :
    read_frames (write_frames frames version height width sec_per_frame
        bbox0 bbox1 bbox2 bbox3 centre0 centre1 projection) = some frames ∧
    read_metadata (write_frames frames version height width sec_per_frame
        bbox0 bbox1 bbox2 bbox3 centre0 centre1 projection)
      = some [("version".toList, version),
              ("height".toList, nat_to_digits height),
              ("width".toList, nat_to_digits width),
              ("sec_per_frame".toList, nat_to_digits sec_per_frame),
              ("bbox".toList, join_sep ',' [bbox0, bbox1, bbox2, bbox3]),
              ("centre".toList, join_sep ',' [centre0, centre1]),
              ("projection".toList, projection_name projection)] ∧
    parse_u32 (nat_to_digits height) = some height ∧
    parse_u32 (nat_to_digits width) = some width ∧
    parse_u32 (nat_to_digits sec_per_frame) = some sec_per_frame ∧
    split_on_char ',' (join_sep ',' [bbox0, bbox1, bbox2, bbox3])
      = [bbox0, bbox1, bbox2, bbox3] ∧
    split_on_char ',' (join_sep ',' [centre0, centre1]) = [centre0, centre1] := by
  refine ⟨?_, ?_, parse_u32_digits height hh, parse_u32_digits width hw,
    parse_u32_digits sec_per_frame hs, ?_, ?_⟩
  · unfold read_frames write_frames
    rw [dropWhile_append_all is_meta_or_empty _ (frames.map frame_line) ?_]
    · cases hf : frames with
      | nil => rfl
      | cons fr rest =>
          rw [List.map_cons, List.dropWhile_cons, is_meta_or_empty_frame_line fr]
          rw [if_neg (by simp)]
          rw [← List.map_cons, ← hf, parse_frame_lines_map frames hframes]
    · intro l hl
      simp only [List.mem_cons, List.not_mem_nil, or_false, List.mem_singleton] at hl
      rcases hl with rfl | rfl | rfl | rfl | rfl | rfl | rfl | rfl
      · exact is_meta_or_empty_meta_line _ _
      · exact is_meta_or_empty_meta_line _ _
      · exact is_meta_or_empty_meta_line _ _
      · exact is_meta_or_empty_meta_line _ _
      · exact is_meta_or_empty_meta_line _ _
      · exact is_meta_or_empty_meta_line _ _
      · exact is_meta_or_empty_meta_line _ _
      · rfl
  · unfold read_metadata write_frames
    rw [show ([meta_line "version".toList version,
        meta_line "height".toList (nat_to_digits height),
        meta_line "width".toList (nat_to_digits width),
        meta_line "sec_per_frame".toList (nat_to_digits sec_per_frame),
        meta_line "bbox".toList (join_sep ',' [bbox0, bbox1, bbox2, bbox3]),
        meta_line "centre".toList (join_sep ',' [centre0, centre1]),
        meta_line "projection".toList (projection_name projection),
        []] ++ frames.map frame_line)
      = ([meta_line "version".toList version,
          meta_line "height".toList (nat_to_digits height),
          meta_line "width".toList (nat_to_digits width),
          meta_line "sec_per_frame".toList (nat_to_digits sec_per_frame),
          meta_line "bbox".toList (join_sep ',' [bbox0, bbox1, bbox2, bbox3]),
          meta_line "centre".toList (join_sep ',' [centre0, centre1]),
          meta_line "projection".toList (projection_name projection)]
          ++ ([] :: frames.map frame_line)) from rfl]
    rw [takeWhile_append_stop _ _ [] (frames.map frame_line) ?_ rfl]
    · simp only [read_metadata_lines]
      rw [parse_meta_line_round "version".toList version (by decide) hver,
        parse_meta_line_round "height".toList _ (by decide) (space_not_mem_digits height),
        parse_meta_line_round "width".toList _ (by decide) (space_not_mem_digits width),
        parse_meta_line_round "sec_per_frame".toList _ (by decide)
          (space_not_mem_digits sec_per_frame),
        parse_meta_line_round "bbox".toList _ (by decide)
          (space_not_mem_join _ (fun f hf => (hbbox f hf).1)),
        parse_meta_line_round "centre".toList _ (by decide)
          (space_not_mem_join _ (fun f hf => (hcentre f hf).1)),
        parse_meta_line_round "projection".toList _ (by decide)
          (space_not_mem_projection_name projection)]
    · intro l hl
      simp only [List.mem_cons, List.not_mem_nil, or_false, List.mem_singleton] at hl
      rcases hl with rfl | rfl | rfl | rfl | rfl | rfl | rfl <;>
        exact not_empty_meta_line _ _
  · exact split_join ',' _ (by simp) (by
      intro f hf
      exact (hbbox f hf).2)
  · exact split_join ',' _ (by simp) (by
      intro f hf
      exact (hcentre f hf).2)

/-- Witness for C3 at a concrete two-frame aggregate and configuration. -/
theorem c3_round_trip_witness :
    ((20 : Nat) < u32_size ∧ (86400 : Nat) < u32_size ∧
      ' ' ∉ "0.1.0".toList ∧
      (∀ f ∈ [("-10".toList : Line), "-10".toList, "10".toList, "10".toList],
        ' ' ∉ f ∧ ',' ∉ f) ∧
      (∀ f ∈ [("0".toList : Line), "0".toList], ' ' ∉ f ∧ ',' ∉ f) ∧
      (∀ fr ∈ ([(0, [(3, 2)]), (1, [])] : Frames),
        fr.1 < u32_size ∧ ∀ p ∈ fr.2, p.1 < u32_size ∧ p.2 < 65536)) ∧
    read_frames (write_frames [(0, [(3, 2)]), (1, [])] "0.1.0".toList 20 20 86400
        "-10".toList "-10".toList "10".toList "10".toList "0".toList "0".toList
        Projection.Equirect)
      = some [(0, [(3, 2)]), (1, [])] ∧
    read_metadata (write_frames [(0, [(3, 2)]), (1, [])] "0.1.0".toList 20 20 86400
        "-10".toList "-10".toList "10".toList "10".toList "0".toList "0".toList
        Projection.Equirect)
      = some [("version".toList, "0.1.0".toList),
              ("height".toList, nat_to_digits 20),
              ("width".toList, nat_to_digits 20),
              ("sec_per_frame".toList, nat_to_digits 86400),
              ("bbox".toList, join_sep ',' ["-10".toList, "-10".toList, "10".toList, "10".toList]),
              ("centre".toList, join_sep ',' ["0".toList, "0".toList]),
              ("projection".toList, projection_name Projection.Equirect)] ∧
    parse_u32 (nat_to_digits 20) = some 20 ∧
    parse_u32 (nat_to_digits 86400) = some 86400 ∧
    split_on_char ',' (join_sep ',' ["-10".toList, "-10".toList, "10".toList, "10".toList])
      = ["-10".toList, "-10".toList, "10".toList, "10".toList] ∧
    split_on_char ',' (join_sep ',' ["0".toList, "0".toList]) = ["0".toList, "0".toList] := by
  have h := c3_round_trip [(0, [(3, 2)]), (1, [])] "0.1.0".toList 20 20 86400
      "-10".toList "-10".toList "10".toList "10".toList "0".toList "0".toList
      Projection.Equirect
      (by decide) (by decide) (by decide) (by decide) (by decide) (by decide) (by decide)
  exact ⟨⟨by decide, by decide, by decide, by decide, by decide, by decide⟩,
    h.1, h.2.1, h.2.2.1, h.2.2.2.2.1, h.2.2.2.2.2.1, h.2.2.2.2.2.2⟩
